import Mathlib

/-!
# Verification of the OmiAI request-orchestration pipeline

Shallow embedding of `src/index.ts` (the `createOmiAI` module: the
`generate` pipeline, the `fallback` retry executor, the file-reference
resolution used by media tools, and the `<think>`-tag reasoning
extraction), together with theorems settling the specification claims.

The embedding follows the first (current) variant of `src/index.ts`
(lines 1-633).  JavaScript strings are modelled as Lean `String`
(lists of characters); `String.prototype.split`, `includes` and
truthiness are modelled explicitly below.
-/

/-- Decidable equality for `Except`, so that concrete pipeline runs
can be settled by `decide`. -/
instance {ε α : Type} [DecidableEq ε] [DecidableEq α] : DecidableEq (Except ε α) := fun
  | .error e, .error f => decidable_of_iff (e = f) (by simp)
  | .error _, .ok _ => .isFalse (fun h => Except.noConfusion h)
  | .ok _, .error _ => .isFalse (fun h => Except.noConfusion h)
  | .ok a, .ok b => decidable_of_iff (a = b) (by simp)

namespace Omi

/-- Splits at the first occurrence of `sep` in `s`: returns
`some (before, after)` where `before` is the text before the first
occurrence and `after` the text after it, or `none` when `sep` does not
occur.  Models the scan underlying `String.prototype.split` /
`String.prototype.includes` (for a non-empty separator). -/
def splitFirst (sep : List Char) : List Char → Option (List Char × List Char)
  | [] => none
  | c :: rest =>
    if sep.isPrefixOf (c :: rest) then some ([], (c :: rest).drop sep.length)
    else
      match splitFirst sep rest with
      | some (pre, post) => some (c :: pre, post)
      | none => none

/-- Fueled worker for `jsSplit`; the fuel bounds the number of
separator occurrences and is always sufficient when instantiated with
the length of the string. -/
def jsSplitAux (sep : List Char) : Nat → List Char → List (List Char)
  | 0, s => [s]
  | fuel + 1, s =>
    match splitFirst sep s with
    | none => [s]
    | some (pre, post) => pre :: jsSplitAux sep fuel post

/-- JavaScript `s.split(sep)` for a non-empty separator: the list of
chunks between occurrences of `sep`. -/
def jsSplit (sep s : List Char) : List (List Char) :=
  jsSplitAux sep (s.length + 1) s

/-- The chunk before the first occurrence of `sep` (the whole string
when `sep` does not occur): element `0` of `jsSplit sep s`. -/
def hsSplit (sep s : List Char) : List Char :=
  match splitFirst sep s with
  | none => s
  | some (pre, _) => pre

/-- JavaScript `s.includes(sub)` for a non-empty `sub`. -/
def containsSubstr (s sub : String) : Bool :=
  (splitFirst sub.toList s.toList).isSome

/-- The character list of the `"<think>"` delimiter. -/
def openL : List Char := "<think>".toList

/-- The character list of the `"</think>"` delimiter. -/
def closeL : List Char := "</think>".toList

/-- Leading- and trailing-whitespace removal on character lists. -/
def trimL (l : List Char) : List Char :=
  ((l.dropWhile Char.isWhitespace).reverse.dropWhile Char.isWhitespace).reverse

/-- JavaScript `s.trim()` (whitespace as recognized by
`Char.isWhitespace`). -/
def jsTrim (s : String) : String := String.mk (trimL s.toList)

/-- Reasoning-trace extraction from `generate` (src/index.ts:532-534):
`if (reasoningText?.includes("<think>")) reasoningText =
reasoningText.split("<think>")[1].split("</think>")[0]?.trim();`.
When the raw text contains no `"<think>"` it is returned unmodified. -/
def extractReasoning (raw : String) : String :=
  if containsSubstr raw "<think>" then
    jsTrim (String.mk ((jsSplit closeL ((jsSplit openL raw.toList).getD 1 [])).getD 0 []))
  else raw

/-! ## Conversation data model (`GeneratePromptObj`, `CoreMessage` roles) -/

/-- Message roles of `CoreMessage["role"]`. -/
inductive Role
  | user | assistant | system | tool
deriving DecidableEq, Repr

/-- The `type` tag of a content part (`"text" | "image" | "file"`). -/
inductive CType
  | text | image | file
deriving DecidableEq, Repr

/-- One element of a structured `content` array:
`{ type, data, mimeType? }`. -/
structure ContentPart where
  ctype : CType
  data : String
  mimeType : Option String
deriving DecidableEq, Repr

/-- A turn's `content`: either a plain string or a content-part array. -/
inductive TurnContent
  | str (s : String)
  | parts (ps : List ContentPart)
deriving DecidableEq, Repr

/-- A conversation turn (`GeneratePromptObj`). -/
structure Turn where
  role : Role
  content : TurnContent
deriving DecidableEq, Repr

/-- The `prompt` parameter: `string | GeneratePromptObj[]`. -/
inductive PromptInput
  | str (s : String)
  | list (l : List Turn)
deriving DecidableEq, Repr

/-- `prompt` normalization (src/index.ts:311): a bare string becomes a
single user turn. -/
def normPrompts : PromptInput → List Turn
  | .str s => [⟨Role.user, .str s⟩]
  | .list l => l

/-- Caller parameters of `generate` (`GenerateParams`); `schemaGiven`
records whether a `schema` was supplied, `temperature = none` models an
omitted caller temperature (the source defaults it to `0`). -/
structure GenParams where
  prompt : PromptInput
  system : Option String
  stream : Bool
  reasoning : Option Bool
  multiLLM : Bool
  contextToolWeb : Option Bool
  autoTool : Bool
  schemaGiven : Bool
  temperature : Option Int
  topK : Option Int
  topP : Option Int
deriving Repr

/-- The Planner's structured decision (`preConfigSchema`). -/
structure PreConfig where
  model : String
  reasoning : Bool
  web_search : Bool
  use_tool : Bool
deriving DecidableEq, Repr

/-- Oracle for the remote calls issued by one `generate` request: the
Planner's decision, the (stringified) web-search results, the
tool-calling sub-run's final text, the reasoning sub-run's
`reasoning`-trace field (possibly absent) and `text` field, and the
settled outcome of each multi-model call, keyed by registry model. -/
structure Env where
  preConfig : PreConfig
  searchJson : String
  toolText : String
  reasoningField : Option String
  reasoningTextF : String
  multiOutcome : String → Except Unit String

/-- Which pipeline step issued a remote call. -/
inductive Stage
  | planner
  | webSearch
  | toolRun
  | reasoningRun
  | multiRun (model : String)
  | finalRun (model : String)
deriving DecidableEq, Repr

/-- Record of one remote call: the issuing stage and the sampling
temperature passed to it (`none` for the web-search call, which takes
no temperature). -/
structure CallRec where
  stage : Stage
  temperature : Option Int
deriving DecidableEq, Repr

/-- Errors `generate` can raise in the modelled fragment:
`unknownModel` is the failure raised when the Planner's model id is not
a registry key (in the source, the `TypeError` from reading `.id` of
the `undefined` produced by the failed `modelList[selectedModelID]`
lookup, thrown while building the final fallback-candidate array). -/
inductive GErr
  | emptyPrompt
  | unknownModel
deriving DecidableEq, Repr

/-- The observable outcome of a successful `generate` call: the
conversation as passed to the final completion, the remote calls
issued, and the `reasoningText` field attached to the result. -/
structure Outcome where
  promptsFinal : List Turn
  calls : List CallRec
  reasoningText : Option String
deriving DecidableEq, Repr

/-! ## Model registry (`modelList`, src/index.ts:214-292) -/

/-- One registry entry (`modelProvider` is represented by the name of
the provider binding it constructs). -/
structure ModelDesc where
  id : String
  speed : Nat
  smarts : Nat
  context_window : Nat
  file_type_support : List String
  description : String
  specialty : List String
  fallback : Option String
  modelProvider : String
deriving DecidableEq, Repr

/-- The registry, in source key order. -/
def modelList : List (String × ModelDesc) :=
  [ ("gemini-1.5-flash",
     { id := "gemini-1.5-flash", speed := 3, smarts := 4,
       context_window := 1000000,
       file_type_support := ["audio", "image", "video", "pdf", "text"],
       description := "Great for most tasks and, general questions and general web search. Great for large context tasks. Also great for all file types.",
       specialty := ["large-files"], fallback := none,
       modelProvider := "google:gemini-1.5-flash" }),
    ("gpt-4o",
     { id := "gpt-4o", speed := 2, smarts := 4, context_window := 128000,
       file_type_support := ["image", "text"],
       description := "Great for highly complex tasks.",
       specialty := ["general"], fallback := none,
       modelProvider := "openai:gpt-4o" }),
    ("claude-3-5-sonnet-latest",
     { id := "claude-3-5-sonnet-latest", speed := 2, smarts := 4,
       context_window := 200000, file_type_support := ["text"],
       description := "Great for highly complex coding tasks.",
       specialty := ["code"], fallback := none,
       modelProvider := "anthropic:claude-3-5-sonnet-latest" }),
    ("llama-3.3-70b-specdec",
     { id := "llama-3.3-70b-specdec", speed := 5, smarts := 2,
       context_window := 8192, file_type_support := ["text"],
       description := "Great for simple tasks that require speed and tool use.",
       specialty := ["small-tasks"], fallback := none,
       modelProvider := "groq:llama-3.3-70b-specdec" }) ]

/-- `Object.keys(modelList)`, in source order. -/
def registryKeys : List String := modelList.map Prod.fst

/-- `modelList[id]`: the registry lookup. -/
def lookupModel (id : String) : Option ModelDesc :=
  (modelList.find? (fun e => e.1 == id)).map Prod.snd

/-! ## Pipeline helpers -/

/-- `prompts.splice(prompts.length - 1, 0, x)`: insert `x` immediately
before the last element (for `[]`, JavaScript `splice(-1, 0, x)`
produces `[x]`). -/
def insertBeforeLast (l : List Turn) (x : Turn) : List Turn :=
  l.take (l.length - 1) ++ [x] ++ l.drop (l.length - 1)

/-- `prompts[prompts.length - 1].content` (for the nonempty prompt
lists the pipeline operates on). -/
def lastContent (l : List Turn) : TurnContent :=
  match l.getLast? with
  | some t => t.content
  | none => .str ""

/-- JavaScript truthiness of an optional string (`undefined` and `""`
are falsy). -/
def truthyS : Option String → Bool
  | some s => !(s == "")
  | none => false

/-- `Array.isArray(c) ? c.find((c) => c.type == "text")?.data : c`
(src/index.ts:427): the extractable plain text of the latest turn. -/
def latestText : TurnContent → Option String
  | .str s => some s
  | .parts ps => (ps.find? (fun c => c.ctype == CType.text)).map ContentPart.data

/-- The synthetic file-reference URI for filtered-media index `i`. -/
def refUri (i : Nat) : String := "https://onellmref.com/" ++ toString i

/-- `Array.prototype.map` with the element's index passed to the
callback, starting at `n`. -/
def mapWithIndex {α β : Type} (f : Nat → α → β) : Nat → List α → List β
  | _, [] => []
  | i, x :: xs => f i x :: mapWithIndex f (i + 1) xs

/-- `latestPromptFiles` (src/index.ts:319-322): the non-text content
parts of the latest turn, each paired with its synthetic reference
URI (indices taken over the filtered list). -/
def mkRefs : TurnContent → List (String × ContentPart)
  | .str _ => []
  | .parts ps =>
    mapWithIndex (fun i c => (refUri i, c)) 0
      (ps.filter (fun c => !(c.ctype == CType.text)))

/-- URL resolution shared by the `ai_scraper`, `ocr` and
`speech_to_text` tools (src/index.ts:362, 376, 401):
`url.includes("https://onellmref.com") ?
latestPromptFiles.find((f) => f.ref == url)?.data || url : url`. -/
def resolveUrl (files : List (String × ContentPart)) (url : String) : String :=
  if containsSubstr url "https://onellmref.com" then
    match files.find? (fun f => f.1 == url) with
    | some f => if f.2.data == "" then url else f.2.data
    | none => url
  else url

/-- The caller-flag/planner-flag combination used by the web-search
and reasoning guards:
`(callerFlag || plannerFlag) && callerFlag !== false`
(`callerFlag` is truthy only when it is an explicit `true`). -/
def overrideFlag (caller : Option Bool) (planner : Bool) : Bool :=
  ((caller == some true) || planner) && !(caller == some false)

/-- `Promise.allSettled` aggregation of the multi-model stage
(src/index.ts:558): the `.value.text` of the fulfilled results, in
call order; rejected results are dropped. -/
def fulfilledTexts (outcomes : List (Except Unit String)) : List String :=
  outcomes.filterMap (fun r => match r with | .ok s => some s | .error _ => none)

/-- Escapes `"` and `\` as `JSON.stringify` does (escaping of control
characters, which never arise in the verified statements, is elided). -/
def jsEscape (s : String) : String :=
  String.mk (s.toList.foldr
    (fun c acc => if c = '"' ∨ c = '\\' then '\\' :: c :: acc else c :: acc) [])

/-- `JSON.stringify` of an array of strings. -/
def jsStringifyArr (l : List String) : String :=
  "[" ++ String.intercalate "," (l.map (fun s => "\"" ++ jsEscape s ++ "\"")) ++ "]"

/-- `reasoningResult?.reasoning || reasoningResult?.text`
(src/index.ts:530): the dedicated reasoning-trace field when truthy,
otherwise the answer text. -/
def rawReason (env : Env) : String :=
  match env.reasoningField with
  | some r => if r == "" then env.reasoningTextF else r
  | none => env.reasoningTextF

/-- The synthetic web-search turn (src/index.ts:456-459). -/
def webTurn (json : String) : Turn :=
  ⟨Role.user, .str ("Web search result: " ++ json)⟩

/-- The synthetic tool-result turn (src/index.ts:505-508). -/
def toolTurn (text : String) : Turn :=
  ⟨Role.user, .str ("Tool result: " ++ text)⟩

/-- The synthetic reasoning-context turn (src/index.ts:536-539). -/
def ctxTurn (text : String) : Turn :=
  ⟨Role.user, .str ("Context: " ++ text)⟩

/-- The synthetic multi-model turn (src/index.ts:560-563). -/
def multiTurn (texts : List String) : Turn :=
  ⟨Role.user, .parts [⟨CType.text, "Context from multiple LLMs: " ++ jsStringifyArr texts, none⟩]⟩

/-! ## The `generate` pipeline (src/index.ts:294-612)

The pipeline is split into named stage functions (guards, conversation
evolution, call records, result fields) wired together by
`generateModel`; each mirrors the corresponding source lines. -/

/-- Guard of the web-search stage (src/index.ts:430-431):
`if (latestTextPrompt) if ((contextTool?.web || preConfigModel.web_search)
&& contextTool?.web !== false)`. -/
def webRuns (p : GenParams) (env : Env) (prompts0 : List Turn) : Bool :=
  truthyS (latestText (lastContent prompts0)) &&
    overrideFlag p.contextToolWeb env.preConfig.web_search

/-- Guard of the tool-calling sub-run (src/index.ts:465):
`if (preConfigModel.use_tool && autoTool)`. -/
def toolRuns (p : GenParams) (env : Env) : Bool :=
  env.preConfig.use_tool && p.autoTool

/-- Guard of the reasoning sub-run (src/index.ts:513):
`if ((reasoning || preConfigModel.reasoning) && reasoning !== false)`. -/
def reasonRuns (p : GenParams) (env : Env) : Bool :=
  overrideFlag p.reasoning env.preConfig.reasoning

/-- The conversation after all four augmentation stages, starting from
the normalized prompt list: the web-search turn is spliced in before
the last turn (src/index.ts:456), the tool-result turn is spliced in
at `prompts.length`, i.e. appended (src/index.ts:505), the
reasoning-context turn (src/index.ts:536) and the multi-model turn
(src/index.ts:560) are spliced in before the last turn of the array as
it stands at that point. -/
def stagePrompts (p : GenParams) (env : Env) (prompts0 : List Turn) : List Turn :=
  let prompts1 := if webRuns p env prompts0
    then insertBeforeLast prompts0 (webTurn env.searchJson) else prompts0
  let prompts2 := if toolRuns p env
    then prompts1 ++ [toolTurn env.toolText] else prompts1
  let prompts3 := if reasonRuns p env
    then insertBeforeLast prompts2 (ctxTurn (extractReasoning (rawReason env))) else prompts2
  if p.multiLLM
    then insertBeforeLast prompts3 (multiTurn (fulfilledTexts (registryKeys.map env.multiOutcome)))
    else prompts3

/-- The model name the final completion is issued with
(src/index.ts:577): `reasoningText && modelConfig.id.includes("llama-3.3")
? google("gemini-1.5-flash") : modelConfig.modelProvider`. -/
def finalModelOf (p : GenParams) (env : Env) (mc : ModelDesc) : String :=
  if (reasonRuns p env && !(extractReasoning (rawReason env) == ""))
      && containsSubstr mc.id "llama-3.3"
  then "google:gemini-1.5-flash" else mc.modelProvider

/-- The remote calls issued, in order: the Planner call (fixed
temperature `0`, src/index.ts:162), then — when the respective guard
holds — the web search (no temperature), the tool sub-run, the
reasoning sub-run, one call per registry model for the multi-model
stage, and the final completion; all completion calls receive the
caller temperature defaulted to `0` (src/index.ts:303). -/
def callsOf (p : GenParams) (env : Env) (prompts0 : List Turn) (mc : ModelDesc) : List CallRec :=
  let tEff : Int := p.temperature.getD 0
  CallRec.mk .planner (some 0) ::
    ((if webRuns p env prompts0 then [CallRec.mk .webSearch none] else []) ++
     (if toolRuns p env then [CallRec.mk .toolRun (some tEff)] else []) ++
     (if reasonRuns p env then [CallRec.mk .reasoningRun (some tEff)] else []) ++
     (if p.multiLLM then registryKeys.map (fun m => CallRec.mk (.multiRun m) (some tEff)) else []) ++
     [CallRec.mk (.finalRun (finalModelOf p env mc)) (some tEff)])

/-- The `reasoningText` field attached to the result
(src/index.ts:596-598): only when the reasoning stage ran and the
extracted text is truthy (non-empty). -/
def rtOf (p : GenParams) (env : Env) : Option String :=
  if reasonRuns p env then
    (if extractReasoning (rawReason env) == "" then none
     else some (extractReasoning (rawReason env)))
  else none

/-- Shallow embedding of `generate`: normalizes the prompt, applies
the Planner decision and each augmentation stage in source order with
the source's guards and splice positions, and assembles the observable
outcome.  Remote sub-calls are resolved through `env`.  The two
modelled failure modes are an empty prompt array (a `TypeError` in the
source) and the failed registry lookup of the Planner's model: the
latter surfaces as the `TypeError` thrown while the final
fallback-candidate array reads `.id` of `undefined`
(src/index.ts:424-425, 566-574), after the augmentation stages have
run but before any final completion is issued. -/
def generateModel (p : GenParams) (env : Env) : Except GErr Outcome :=
  match normPrompts p.prompt with
  | [] => .error .emptyPrompt
  | t0 :: ts0 =>
    match lookupModel env.preConfig.model with
    | none => .error .unknownModel
    | some mc =>
      .ok { promptsFinal := stagePrompts p env (t0 :: ts0)
            calls := callsOf p env (t0 :: ts0) mc
            reasoningText := rtOf p env }

/-! ## Concrete fixtures for the closed evaluations -/

/-- A two-turn caller conversation. -/
def pBase : GenParams where
  prompt := .list [⟨Role.user, .str "first"⟩, ⟨Role.user, .str "last"⟩]
  system := none
  stream := false
  reasoning := none
  multiLLM := false
  contextToolWeb := none
  autoTool := true
  schemaGiven := false
  temperature := none
  topK := none
  topP := none

/-- An oracle where the Planner picks `gpt-4o` and enables only the
tool stage. -/
def envBase : Env where
  preConfig := ⟨"gpt-4o", false, false, true⟩
  searchJson := "S"
  toolText := "TT"
  reasoningField := none
  reasoningTextF := ""
  multiOutcome := fun _ => .ok "m"

/-- `pBase` with the multi-model flag and streaming both enabled. -/
def pMulti : GenParams := { pBase with multiLLM := true, stream := true }

/-- The successful outcome of a pipeline run (dummy outcome for the
error case); lets closed statements name the outcome of a concrete
run. -/
def outOrDefault (r : Except GErr Outcome) : Outcome :=
  match r with
  | .ok o => o
  | .error _ => ⟨[], [], none⟩

/-- Work unit used by the fallback-executor evaluation: the
un-substituted attempt and candidate `0` throw, candidate `1`
succeeds. -/
def genW : Option Nat → Except String Nat
  | none => .error "primary"
  | some 0 => .error "c0"
  | some 1 => .ok 42
  | some _ => .ok 99

/-- Latest-turn content with one text part and two media parts, used
by the file-reference evaluation. -/
def lcW : TurnContent :=
  .parts [⟨CType.text, "q", none⟩, ⟨CType.file, "D1", none⟩,
          ⟨CType.image, "D2", some "image/png"⟩]

/-! ## The fallback executor (`fallback`, src/index.ts:111-124) -/

/-- Candidate loop of `fallback`: tries `genFunc (some x)` for each
remaining candidate `x`, carrying the most recent error; when the
candidate list is exhausted the carried error is rethrown.  Returns
the result together with the list of arguments attempted. -/
def fallbackGo {T E G : Type} (genFunc : Option T → Except E G) :
    List T → E → Except E G × List (Option T)
  | [], e => (.error e, [])
  | x :: xs, _ =>
    match genFunc (some x) with
    | .ok g => (.ok g, [some x])
    | .error e2 =>
      let r := fallbackGo genFunc xs e2
      (r.1, some x :: r.2)

/-- The `fallback` executor: first attempt with no substitution
(`genFunc undefined`), then the candidates in order; the first success
is returned, and if every attempt throws, the last error is
propagated.  The second component is the trace of arguments with which
`genFunc` was invoked, in order. -/
def fallbackRun {T E G : Type} (genFunc : Option T → Except E G)
    (item : List T) : Except E G × List (Option T) :=
  match genFunc none with
  | .ok g => (.ok g, [none])
  | .error e =>
    let r := fallbackGo genFunc item e
    (r.1, none :: r.2)

/-! ## Helper lemmas -/

theorem generateModel_ok_inv {p : GenParams} {env : Env} {out : Outcome}
    (h : generateModel p env = .ok out) :
    ∃ t0 ts0 mc, normPrompts p.prompt = t0 :: ts0 ∧
      lookupModel env.preConfig.model = some mc ∧
      out = ⟨stagePrompts p env (t0 :: ts0), callsOf p env (t0 :: ts0) mc, rtOf p env⟩ := by
  unfold generateModel at h
  rcases hnp : normPrompts p.prompt with _ | ⟨t, ts⟩
  · rw [hnp] at h
    exact absurd h (by simp)
  · rw [hnp] at h
    rcases hlk : lookupModel env.preConfig.model with _ | mc
    · rw [hlk] at h
      exact absurd h (by simp)
    · rw [hlk] at h
      exact ⟨t, ts, mc, rfl, rfl, by injection h with h2; exact h2.symm⟩

theorem mem_insertBeforeLast_self (l : List Turn) (x : Turn) :
    x ∈ insertBeforeLast l x := by
  unfold insertBeforeLast; simp

theorem mem_insertBeforeLast_of_mem {l : List Turn} {y : Turn} (x : Turn)
    (h : y ∈ l) : y ∈ insertBeforeLast l x := by
  unfold insertBeforeLast
  rw [← List.take_append_drop (l.length - 1) l] at h
  rcases List.mem_append.1 h with h1 | h2
  · exact List.mem_append.2 (Or.inl (List.mem_append.2 (Or.inl h1)))
  · exact List.mem_append.2 (Or.inr h2)

theorem mem_ite_singleton {b : Bool} {x c : CallRec}
    (h : c ∈ (if b then [x] else [])) : b = true ∧ c = x := by
  cases b
  · simp at h
  · simp at h
    simp [h]

/-! ## Claim theorems -/

/-- C1: the claim that every synthetic augmentation turn is inserted
immediately before the last turn fails on the tool-calling stage: the
source splices the `Tool result` turn at `prompts.length`
(src/index.ts:505), appending it after the caller's last turn, so at
final generation the conversation tail is the synthetic turn.  This
evaluation exhibits it on a two-turn request whose Planner decision
enables only the tool stage. -/
theorem tool_result_turn_is_appended :
    (generateModel pBase envBase).map (fun o => o.promptsFinal) =
      .ok [⟨Role.user, .str "first"⟩, ⟨Role.user, .str "last"⟩, toolTurn "TT"]
    ∧ (normPrompts pBase.prompt).getLast? = some ⟨Role.user, .str "last"⟩
    ∧ toolTurn "TT" ≠ (⟨Role.user, .str "last"⟩ : Turn) := by decide

/-- C2: when the Planner returns a model id that is not a registry
key, `generate` fails with the failed-registry-lookup error and never
issues a final completion with a substituted model. -/
theorem unknown_model_aborts (p : GenParams) (env : Env)
    (hne : normPrompts p.prompt ≠ [])
    (hlk : lookupModel env.preConfig.model = none) :
    generateModel p env = .error GErr.unknownModel := by
  rcases hnp : normPrompts p.prompt with _ | ⟨t, ts⟩
  · exact absurd hnp hne
  · unfold generateModel; rw [hnp, hlk]

theorem unknown_model_aborts_witness :
    normPrompts pBase.prompt ≠ [] ∧ lookupModel "gpt-5" = none ∧
    generateModel pBase { envBase with preConfig := ⟨"gpt-5", false, false, true⟩ }
      = .error GErr.unknownModel :=
  ⟨by decide, by decide, unknown_model_aborts _ _ (by decide) (by decide)⟩

/-- C4 counterexample: with the multi-model flag and streaming both
enabled, the multi-model stage still runs — the per-model calls are
issued and the `Context from multiple LLMs` turn is inserted
(src/index.ts:544 guards on `multiLLM` alone, with no `!stream`
conjunct). -/
theorem multi_stage_runs_while_streaming :
    pMulti.stream = true ∧ pMulti.multiLLM = true ∧
    (generateModel pMulti envBase).map
      (fun o => (o.promptsFinal.contains (multiTurn ["m", "m", "m", "m"]),
                 o.calls.any (fun c => match c.stage with
                   | Stage.multiRun _ => true | _ => false))) =
      .ok (true, true) := by decide

/-- C4 amended: the multi-model cross-check stage runs exactly when
the multi-model flag is enabled, regardless of streaming: one call per
registry model is issued and the `Context from multiple LLMs` turn is
inserted iff `multiLLM` is set. -/
theorem multi_stage_iff_flag (p : GenParams) (env : Env) (out : Outcome)
    (h : generateModel p env = .ok out) :
    (out.calls.filter (fun c => match c.stage with
        | Stage.multiRun _ => true | _ => false)).length
      = (if p.multiLLM then registryKeys.length else 0)
    ∧ (p.multiLLM = true →
        multiTurn (fulfilledTexts (registryKeys.map env.multiOutcome)) ∈ out.promptsFinal) := by
  obtain ⟨t0, ts0, mc, hnp, hlk, hout⟩ := generateModel_ok_inv h
  subst hout
  constructor
  · by_cases hw : webRuns p env (t0 :: ts0) <;> by_cases ht : toolRuns p env <;>
      by_cases hr : reasonRuns p env <;> by_cases hm : p.multiLLM <;>
      simp [callsOf, hw, ht, hr, hm, List.filter_append, registryKeys, modelList]
  · intro hm
    simp only [stagePrompts, hm, if_true]
    exact mem_insertBeforeLast_self _ _

theorem multi_stage_iff_flag_witness :
    ((outOrDefault (generateModel pMulti envBase)).calls.filter
        (fun c => match c.stage with | Stage.multiRun _ => true | _ => false)).length
      = (if pMulti.multiLLM then registryKeys.length else 0)
    ∧ (pMulti.multiLLM = true →
        multiTurn (fulfilledTexts (registryKeys.map envBase.multiOutcome))
          ∈ (outOrDefault (generateModel pMulti envBase)).promptsFinal) :=
  multi_stage_iff_flag pMulti envBase _ (by decide)

/-- C5 counterexample: the claim that each caller flag strictly
overrides the Planner fails for the tool-use flag: with `autoTool`
explicitly `true` and the Planner's `use_tool` `false`, the
tool-calling stage does not run (src/index.ts:465 requires
`preConfigModel.use_tool && autoTool`), so an explicit `true` does not
force the stage. -/
theorem autotool_true_does_not_force :
    pBase.autoTool = true ∧
    (generateModel pBase { envBase with preConfig := ⟨"gpt-4o", false, false, false⟩ }).map
      (fun o => (o.calls.any (fun c => c.stage == Stage.toolRun), o.promptsFinal)) =
      .ok (false, [⟨Role.user, .str "first"⟩, ⟨Role.user, .str "last"⟩]) := by decide

/-- C5 amended: the web-search and reasoning caller flags strictly
override the Planner (explicit `false` skips, explicit `true` forces,
unset defers), with the web stage additionally requiring non-empty
extractable text in the last turn; the tool-use flag only vetoes: the
stage runs iff the Planner enabled it and `autoTool` is not `false`. -/
theorem caller_flag_override (p : GenParams) (env : Env) (out : Outcome)
    (h : generateModel p env = .ok out) :
    out.calls.any (fun c => c.stage == Stage.webSearch)
      = (truthyS (latestText (lastContent (normPrompts p.prompt)))
         && overrideFlag p.contextToolWeb env.preConfig.web_search)
    ∧ out.calls.any (fun c => c.stage == Stage.toolRun)
      = (env.preConfig.use_tool && p.autoTool)
    ∧ out.calls.any (fun c => c.stage == Stage.reasoningRun)
      = overrideFlag p.reasoning env.preConfig.reasoning
    ∧ (∀ b, overrideFlag (some false) b = false)
    ∧ (∀ b, overrideFlag (some true) b = true)
    ∧ (∀ b, overrideFlag none b = b) := by
  obtain ⟨t0, ts0, mc, hnp, hlk, hout⟩ := generateModel_ok_inv h
  subst hout
  rw [hnp]
  refine ⟨?_, ?_, ?_, by decide, by decide, by decide⟩ <;>
    (cases hw : webRuns p env (t0 :: ts0) <;> cases ht2 : toolRuns p env <;>
      cases hr2 : reasonRuns p env <;> cases hm : p.multiLLM <;>
      (first
        | (simp only [callsOf, hw, ht2, hr2, hm]
           simp only [webRuns] at hw
           simp only [toolRuns] at ht2
           simp only [reasonRuns] at hr2
           simp [hw, ht2, hr2, registryKeys, modelList])))

theorem caller_flag_override_witness :
    (outOrDefault (generateModel pBase envBase)).calls.any
        (fun c => c.stage == Stage.webSearch)
      = (truthyS (latestText (lastContent (normPrompts pBase.prompt)))
         && overrideFlag pBase.contextToolWeb envBase.preConfig.web_search)
    ∧ (outOrDefault (generateModel pBase envBase)).calls.any
        (fun c => c.stage == Stage.toolRun)
      = (envBase.preConfig.use_tool && pBase.autoTool)
    ∧ (outOrDefault (generateModel pBase envBase)).calls.any
        (fun c => c.stage == Stage.reasoningRun)
      = overrideFlag pBase.reasoning envBase.preConfig.reasoning
    ∧ (∀ b, overrideFlag (some false) b = false)
    ∧ (∀ b, overrideFlag (some true) b = true)
    ∧ (∀ b, overrideFlag none b = b) :=
  caller_flag_override pBase envBase _ (by decide)

/-- C6: over the registered models, the multi-model stage injects
exactly the texts of the fulfilled calls, in registry key order
(`fulfilledTexts` is the order-preserving restriction to fulfilled
outcomes); each model is called exactly once (no retries), and the
request's success never depends on which multi-model calls failed. -/
theorem multi_partial_failure_tolerated (p : GenParams) (env : Env) (out : Outcome)
    (h : generateModel p env = .ok out) (hm : p.multiLLM = true) :
    multiTurn (fulfilledTexts (registryKeys.map env.multiOutcome)) ∈ out.promptsFinal
    ∧ (out.calls.filter (fun c => match c.stage with
        | Stage.multiRun _ => true | _ => false)).length = registryKeys.length
    ∧ (∀ o2 : String → Except Unit String,
        ∃ out2, generateModel p { env with multiOutcome := o2 } = .ok out2)
    ∧ (∀ a b, fulfilledTexts (a ++ b) = fulfilledTexts a ++ fulfilledTexts b)
    ∧ (∀ s, fulfilledTexts [Except.ok s] = [s])
    ∧ (∀ e, fulfilledTexts [Except.error e] = []) := by
  obtain ⟨t0, ts0, mc, hnp, hlk, hout⟩ := generateModel_ok_inv h
  subst hout
  refine ⟨?_, ?_, ?_, ?_, ?_, ?_⟩
  · simp only [stagePrompts, hm, if_true]
    exact mem_insertBeforeLast_self _ _
  · by_cases hw : webRuns p env (t0 :: ts0) <;> by_cases ht : toolRuns p env <;>
      by_cases hr : reasonRuns p env <;>
      simp [callsOf, hw, ht, hr, hm, List.filter_append, registryKeys, modelList]
  · intro o2
    unfold generateModel
    rw [hnp]
    have hpc : ({ env with multiOutcome := o2 } : Env).preConfig = env.preConfig := rfl
    rw [hpc, hlk]
    exact ⟨_, rfl⟩
  · intro a b; simp [fulfilledTexts]
  · intro s; simp [fulfilledTexts]
  · intro e; simp [fulfilledTexts]

theorem multi_partial_failure_tolerated_witness :
    multiTurn (fulfilledTexts (registryKeys.map
        (fun m => if m == "gpt-4o" then .error () else .ok m)))
      ∈ (outOrDefault (generateModel pMulti
          { envBase with multiOutcome := fun m => if m == "gpt-4o" then .error () else .ok m })).promptsFinal
    ∧ fulfilledTexts (registryKeys.map
        (fun m => if m == "gpt-4o" then .error () else .ok m))
      = ["gemini-1.5-flash", "claude-3-5-sonnet-latest", "llama-3.3-70b-specdec"] :=
  ⟨(multi_partial_failure_tolerated pMulti
      { envBase with multiOutcome := fun m => if m == "gpt-4o" then .error () else .ok m }
      _ (by decide) (by decide)).1, by decide⟩

/-- C9: when the caller omits `temperature`, the default `0` is the
sampling temperature passed to every completion call issued by the
request (tool sub-run, reasoning sub-run, each multi-model call, final
generation, and the Planner's fixed `0`); only the web-search call —
which takes no temperature — is excepted, so no completion falls back
to a provider default. -/
theorem default_temperature_is_zero (p : GenParams) (env : Env) (out : Outcome)
    (ht : p.temperature = none) (h : generateModel p env = .ok out) :
    ∀ c ∈ out.calls, c.stage ≠ Stage.webSearch → c.temperature = some 0 := by
  obtain ⟨t0, ts0, mc, hnp, hlk, hout⟩ := generateModel_ok_inv h
  subst hout
  intro c hc hcs
  simp only [callsOf, ht, Option.getD_none] at hc
  rcases List.mem_cons.1 hc with rfl | hc1
  · rfl
  rcases List.mem_append.1 hc1 with hc2 | hc9
  rotate_left
  · rcases List.mem_cons.1 hc9 with rfl | hc10
    · rfl
    · simp at hc10
  rcases List.mem_append.1 hc2 with hc3 | hc8
  rotate_left
  · by_cases hm : p.multiLLM <;> simp [hm] at hc8
    obtain ⟨m, _, rfl⟩ := hc8
    rfl
  rcases List.mem_append.1 hc3 with hc4 | hc7
  rotate_left
  · exact (mem_ite_singleton hc7).2 ▸ rfl
  rcases List.mem_append.1 hc4 with hc5 | hc6
  · exact absurd ((mem_ite_singleton hc5).2 ▸ rfl : c.stage = Stage.webSearch) hcs
  · exact (mem_ite_singleton hc6).2 ▸ rfl

theorem default_temperature_is_zero_witness :
    pBase.temperature = none
    ∧ CallRec.mk Stage.toolRun (some 0) ∈ (outOrDefault (generateModel pBase envBase)).calls
    ∧ (CallRec.mk Stage.toolRun (some 0)).temperature = some 0 :=
  ⟨rfl, by decide,
   default_temperature_is_zero pBase envBase
     (outOrDefault (generateModel pBase envBase)) rfl (by decide)
     (CallRec.mk Stage.toolRun (some 0)) (by decide) (by decide)⟩

/-- C10: when the reasoning stage runs and the extracted reasoning
text is empty, the synthetic `Context: ` turn is still inserted into
the conversation, but no `reasoningText` is attached to the result
(src/index.ts:536-539 inserts unconditionally inside the stage, while
src/index.ts:596-598 attaches only a truthy value). -/
theorem empty_reasoning_not_attached (p : GenParams) (env : Env) (out : Outcome)
    (h : generateModel p env = .ok out)
    (hr : reasonRuns p env = true)
    (he : extractReasoning (rawReason env) = "") :
    ctxTurn "" ∈ out.promptsFinal ∧ out.reasoningText = none := by
  obtain ⟨t0, ts0, mc, hnp, hlk, hout⟩ := generateModel_ok_inv h
  subst hout
  constructor
  · cases hm : p.multiLLM
    · simp only [stagePrompts, hr, he, hm, Bool.false_eq_true, if_false, if_true]
      exact mem_insertBeforeLast_self _ _
    · simp only [stagePrompts, hr, he, hm, if_true]
      exact mem_insertBeforeLast_of_mem _ (mem_insertBeforeLast_self _ _)
  · simp [rtOf, hr, he]

theorem fallbackGo_success {T E G : Type} (gen : Option T → Except E G)
    (post : List T) (c : T) (g : G) (hc : gen (some c) = .ok g) :
    ∀ (pre : List T), (∀ x ∈ pre, ∃ ex, gen (some x) = .error ex) →
      ∀ e, fallbackGo gen (pre ++ c :: post) e = (.ok g, pre.map some ++ [some c])
  | [], _, e => by simp [fallbackGo, hc]
  | x :: pre, hpre, e => by
    obtain ⟨ex, hex⟩ := hpre x (List.mem_cons_self x pre)
    have ih := fallbackGo_success gen post c g hc pre
      (fun y hy => hpre y (List.mem_cons_of_mem x hy)) ex
    simp [fallbackGo, hex, ih]

theorem fallbackGo_allfail {T E G : Type} (gen : Option T → Except E G)
    (y : T) (ey : E) (hy : gen (some y) = .error ey) :
    ∀ (ys : List T), (∀ x ∈ ys, ∃ ex, gen (some x) = .error ex) →
      ∀ e, fallbackGo gen (ys ++ [y]) e = (.error ey, (ys ++ [y]).map some)
  | [], _, e => by simp [fallbackGo, hy]
  | x :: ys, hall, e => by
    obtain ⟨ex, hex⟩ := hall x (List.mem_cons_self x ys)
    have ih := fallbackGo_allfail gen y ey hy ys
      (fun z hz => hall z (List.mem_cons_of_mem x hz)) ex
    simp [fallbackGo, hex, ih]

/-- C3: semantics of the `fallback` executor.  The first attempt runs
with no substitution (`genFunc undefined` is the head of every trace);
when the un-substituted attempt succeeds no candidate is invoked; when
it and candidates `0..k-1` fail and candidate `k` succeeds, the result
is exactly candidate `k`'s own result and the later candidates are
never invoked (the trace stops at candidate `k`); when every attempt
fails the last error is propagated unmodified (the un-substituted
attempt's error for an empty candidate list, otherwise the last
candidate's). -/
theorem fallback_executor_semantics {T E G : Type} (gen : Option T → Except E G) :
    (∀ (g : G) (item : List T), gen none = .ok g →
       fallbackRun gen item = (.ok g, [none]))
    ∧ (∀ (e0 : E) (pre post : List T) (c : T) (g : G), gen none = .error e0 →
         (∀ x ∈ pre, ∃ ex, gen (some x) = .error ex) → gen (some c) = .ok g →
         fallbackRun gen (pre ++ c :: post) = (.ok g, none :: (pre.map some ++ [some c])))
    ∧ (∀ (e0 : E), gen none = .error e0 →
         fallbackRun gen [] = (.error e0, [none]))
    ∧ (∀ (e0 : E) (ys : List T) (y : T) (ey : E), gen none = .error e0 →
         (∀ x ∈ ys, ∃ ex, gen (some x) = .error ex) → gen (some y) = .error ey →
         fallbackRun gen (ys ++ [y]) = (.error ey, none :: (ys ++ [y]).map some)) := by
  refine ⟨?_, ?_, ?_, ?_⟩
  · intro g item h0; simp [fallbackRun, h0]
  · intro e0 pre post c g h0 hpre hc
    simp [fallbackRun, h0, fallbackGo_success gen post c g hc pre hpre e0]
  · intro e0 h0; simp [fallbackRun, h0, fallbackGo]
  · intro e0 ys y ey h0 hall hy
    simp [fallbackRun, h0, fallbackGo_allfail gen y ey hy ys hall e0]

theorem fallback_executor_semantics_witness :
    fallbackRun genW [0, 1, 2] = (.ok 42, [none, some 0, some 1])
    ∧ fallbackRun genW [0] = (.error "c0", [none, some 0]) := by
  constructor
  · have h := (fallback_executor_semantics genW).2.1 "primary" [0] [2] 1 42 rfl
      (by intro x hx; simp at hx; subst hx; exact ⟨"c0", rfl⟩) rfl
    simpa using h
  · have h := (fallback_executor_semantics genW).2.2.2 "primary" [] 0 "c0" rfl
      (by intro x hx; simp at hx) rfl
    simpa using h

theorem empty_reasoning_not_attached_witness :
    ctxTurn "" ∈ (outOrDefault (generateModel { pBase with reasoning := some true }
        { envBase with reasoningField := some "<think></think>" })).promptsFinal
    ∧ (outOrDefault (generateModel { pBase with reasoning := some true }
        { envBase with reasoningField := some "<think></think>" })).reasoningText = none :=
  empty_reasoning_not_attached { pBase with reasoning := some true }
    { envBase with reasoningField := some "<think></think>" } _
    (by decide) (by decide) (by decide)

theorem isPrefixOf_true_iff {l1 l2 : List Char} :
    l1.isPrefixOf l2 = true ↔ l1 <+: l2 :=
  List.isPrefixOf_iff_prefix

theorem splitFirst_cons_pos {sep : List Char} {c : Char} {s : List Char}
    (h : sep.isPrefixOf (c :: s) = true) :
    splitFirst sep (c :: s) = some ([], (c :: s).drop sep.length) := by
  simp [splitFirst, h]

theorem splitFirst_append_self (sep rest : List Char) (hne : sep ≠ []) :
    splitFirst sep (sep ++ rest) = some ([], rest) := by
  rcases sep with _ | ⟨c, cs⟩
  · exact absurd rfl hne
  · have hpre : (c :: cs).isPrefixOf ((c :: cs) ++ rest) = true :=
      isPrefixOf_true_iff.2 (List.prefix_append _ _)
    rw [show ((c :: cs) ++ rest) = c :: (cs ++ rest) from rfl] at hpre ⊢
    rw [splitFirst_cons_pos hpre]
    rw [show c :: (cs ++ rest) = (c :: cs) ++ rest from rfl, List.drop_left]

theorem toList_append (a b : String) :
    (a ++ b).toList = a.toList ++ b.toList := by
  simp [String.toList, String.data_append]

theorem containsSubstr_refUri (i : Nat) :
    containsSubstr (refUri i) "https://onellmref.com" = true := by
  unfold containsSubstr refUri
  rw [toList_append,
    show ("https://onellmref.com/").toList = "https://onellmref.com".toList ++ ['/'] from by decide,
    List.append_assoc, splitFirst_append_self _ _ (by decide)]
  rfl

theorem mem_mapWithIndex_shape {l : List ContentPart} :
    ∀ (n : Nat) (x : String × ContentPart),
      x ∈ mapWithIndex (fun i c => (refUri i, c)) n l → ∃ i, x.1 = refUri i := by
  induction l with
  | nil => intro n x h; cases h
  | cons c cs ih =>
    intro n x h
    rcases List.mem_cons.1 h with rfl | h2
    · exact ⟨n, rfl⟩
    · exact ih (n + 1) x h2

theorem mem_mkRefs_shape {lc : TurnContent} {x : String × ContentPart}
    (h : x ∈ mkRefs lc) : ∃ i, x.1 = refUri i := by
  cases lc with
  | str s => cases h
  | parts ps => exact mem_mapWithIndex_shape _ x h

theorem find_eq_of_mem_of_nodup (l : List (String × ContentPart))
    (f : String × ContentPart) (hnd : (l.map Prod.fst).Nodup) (hf : f ∈ l) :
    l.find? (fun g => g.1 == f.1) = some f := by
  induction l with
  | nil => cases hf
  | cons x xs ih =>
    rcases List.mem_cons.1 hf with rfl | hf2
    · simp
    · have hx1 : x.1 ∉ xs.map Prod.fst := (List.nodup_cons.1 (by simpa using hnd)).1
      have hnd2 : (xs.map Prod.fst).Nodup := (List.nodup_cons.1 (by simpa using hnd)).2
      have hne : ¬ (x.1 == f.1) = true := by
        simp only [beq_iff_eq]
        intro he
        exact hx1 (he ▸ List.mem_map_of_mem Prod.fst hf2)
      simp [List.find?_cons, hne, ih hnd2 hf2]

/-- C8 counterexample: for a media part whose original payload is the
empty string, an invocation with the part's assigned reference URI is
passed the raw URI, not the payload: the source's
`find(...)?.data || url` treats the empty payload as falsy and falls
back to the URL — so the claim that the capability is always called
with the original payload fails at this input. -/
theorem empty_payload_not_resolved :
    mkRefs (TurnContent.parts [⟨CType.file, "", none⟩])
      = [("https://onellmref.com/0", ⟨CType.file, "", none⟩)]
    ∧ resolveUrl (mkRefs (TurnContent.parts [⟨CType.file, "", none⟩]))
        "https://onellmref.com/0" = "https://onellmref.com/0"
    ∧ ("https://onellmref.com/0" : String) ≠ "" := by decide

/-- C8 amended: an invocation whose `url` equals the reference
assigned to a non-text part of the latest turn is passed that part's
original payload provided the payload is non-empty (an empty payload
falls back to the raw url); a `url` matching no known reference is
passed through unchanged. -/
theorem file_reference_resolution (lc : TurnContent) (f : String × ContentPart)
    (hnd : ((mkRefs lc).map Prod.fst).Nodup) (hf : f ∈ mkRefs lc)
    (hne : ¬ f.2.data = "") :
    resolveUrl (mkRefs lc) f.1 = f.2.data
    ∧ (∀ url, (∀ g ∈ mkRefs lc, g.1 ≠ url) → resolveUrl (mkRefs lc) url = url) := by
  constructor
  · have hinc : containsSubstr f.1 "https://onellmref.com" = true := by
      obtain ⟨i, hi⟩ := mem_mkRefs_shape hf
      rw [hi]; exact containsSubstr_refUri i
    have hfind := find_eq_of_mem_of_nodup (mkRefs lc) f hnd hf
    have hbe : ¬ (f.2.data == "") = true := by simpa using hne
    simp [resolveUrl, hinc, hfind, hbe]
  · intro url hurl
    have hfind : (mkRefs lc).find? (fun g => g.1 == url) = none :=
      List.find?_eq_none.2 (fun x hx => by simpa using hurl x hx)
    unfold resolveUrl
    rw [hfind]
    split <;> rfl

theorem file_reference_resolution_witness :
    resolveUrl (mkRefs lcW) "https://onellmref.com/1" = "D2"
    ∧ resolveUrl (mkRefs lcW) "https://example.com" = "https://example.com" :=
  ⟨(file_reference_resolution lcW
      ("https://onellmref.com/1", ⟨CType.image, "D2", some "image/png"⟩)
      (by decide) (by decide) (by decide)).1,
   (file_reference_resolution lcW
      ("https://onellmref.com/1", ⟨CType.image, "D2", some "image/png"⟩)
      (by decide) (by decide) (by decide)).2 "https://example.com" (by decide)⟩

/-! ## Lemmas for the `<think>` extraction (C7) -/

theorem openL_cons : openL = ['<', 't', 'h', 'i', 'n', 'k', '>'] := by decide

theorem closeL_cons : closeL = ['<', '/', 't', 'h', 'i', 'n', 'k', '>'] := by decide

theorem splitFirst_cons_neg {sep : List Char} {c : Char} {s : List Char}
    (h : sep.isPrefixOf (c :: s) = false) :
    splitFirst sep (c :: s) = (splitFirst sep s).map (fun pq => (c :: pq.1, pq.2)) := by
  cases hsp : splitFirst sep s <;> simp [splitFirst, h, hsp]

theorem isPrefixOf_false_head {a b : Char} {as bs : List Char} (h : ¬ a = b) :
    (a :: as).isPrefixOf (b :: bs) = false := by
  simp [List.isPrefixOf, h]

theorem isPrefixOf_false_second {a b c : Char} {as bs : List Char} (h : ¬ b = c) :
    (a :: b :: as).isPrefixOf (a :: c :: bs) = false := by
  simp [List.isPrefixOf, h]

theorem splitFirst_none_of_no_occ {sep s : List Char} (h : ¬ sep <:+: s) :
    splitFirst sep s = none := by
  induction s with
  | nil => rfl
  | cons c cs ih =>
    have hnp : sep.isPrefixOf (c :: cs) = false := by
      cases hX : sep.isPrefixOf (c :: cs) with
      | false => rfl
      | true => exact absurd (List.IsPrefix.isInfix (isPrefixOf_true_iff.1 hX)) h
    rw [splitFirst_cons_neg hnp, ih (fun hi => h (List.infix_cons hi))]
    rfl

theorem prefix_overlap {sep a b : List Char} (h : sep <+: a ++ b)
    (hna : ¬ sep <+: a) : ∃ r, r ≠ [] ∧ a ++ r = sep ∧ r <+: b := by
  by_cases hl : sep.length ≤ a.length
  · exact absurd (List.prefix_of_prefix_length_le h (List.prefix_append a b) hl) hna
  · push_neg at hl
    have ha : a <+: sep :=
      List.prefix_of_prefix_length_le (List.prefix_append a b) h hl.le
    obtain ⟨r, hr⟩ := ha
    refine ⟨r, ?_, hr, ?_⟩
    · rintro rfl
      have hae : a = sep := by simpa using hr
      rw [hae] at hl
      exact lt_irrefl _ hl
    · obtain ⟨u, hu⟩ := h
      rw [← hr, List.append_assoc] at hu
      exact ⟨u, List.append_cancel_left hu⟩

theorem no_open_overlap {c : Char} {a2 r t : List Char}
    (har : (c :: a2) ++ r = openL) (hrne : r ≠ [])
    (hrb : r <+: closeL ++ t) : False := by
  have hrs : r ∈ openL.tails := (List.mem_tails _ _).2 ⟨c :: a2, har⟩
  rw [openL_cons] at hrs
  fin_cases hrs
  · have hl := congrArg List.length har
    rw [openL_cons] at hl
    simp at hl
  all_goals first
    | exact hrne rfl
    | (rw [closeL_cons] at hrb
       exact absurd (List.cons_prefix_cons.1 hrb).1 (by decide))

theorem no_close_overlap {c : Char} {a2 r t : List Char}
    (har : (c :: a2) ++ r = closeL) (hrne : r ≠ [])
    (hrb : r <+: closeL ++ t) : False := by
  have hrs : r ∈ closeL.tails := (List.mem_tails _ _).2 ⟨c :: a2, har⟩
  rw [closeL_cons] at hrs
  fin_cases hrs
  · have hl := congrArg List.length har
    rw [closeL_cons] at hl
    simp at hl
  all_goals first
    | exact hrne rfl
    | (rw [closeL_cons] at hrb
       exact absurd (List.cons_prefix_cons.1 hrb).1 (by decide))

theorem splitFirst_open_through_close (t : List Char) :
    splitFirst openL (closeL ++ t)
      = (splitFirst openL t).map (fun pq => (closeL ++ pq.1, pq.2)) := by
  have h0 : openL.isPrefixOf ('<' :: '/' :: 't' :: 'h' :: 'i' :: 'n' :: 'k' :: '>' :: t) = false := by
    rw [openL_cons]; exact isPrefixOf_false_second (by decide)
  have h1 : openL.isPrefixOf ('/' :: 't' :: 'h' :: 'i' :: 'n' :: 'k' :: '>' :: t) = false := by
    rw [openL_cons]; exact isPrefixOf_false_head (by decide)
  have h2 : openL.isPrefixOf ('t' :: 'h' :: 'i' :: 'n' :: 'k' :: '>' :: t) = false := by
    rw [openL_cons]; exact isPrefixOf_false_head (by decide)
  have h3 : openL.isPrefixOf ('h' :: 'i' :: 'n' :: 'k' :: '>' :: t) = false := by
    rw [openL_cons]; exact isPrefixOf_false_head (by decide)
  have h4 : openL.isPrefixOf ('i' :: 'n' :: 'k' :: '>' :: t) = false := by
    rw [openL_cons]; exact isPrefixOf_false_head (by decide)
  have h5 : openL.isPrefixOf ('n' :: 'k' :: '>' :: t) = false := by
    rw [openL_cons]; exact isPrefixOf_false_head (by decide)
  have h6 : openL.isPrefixOf ('k' :: '>' :: t) = false := by
    rw [openL_cons]; exact isPrefixOf_false_head (by decide)
  have h7 : openL.isPrefixOf ('>' :: t) = false := by
    rw [openL_cons]; exact isPrefixOf_false_head (by decide)
  rw [show closeL ++ t = '<' :: '/' :: 't' :: 'h' :: 'i' :: 'n' :: 'k' :: '>' :: t from
      by rw [closeL_cons]; rfl]
  rw [splitFirst_cons_neg h0, splitFirst_cons_neg h1, splitFirst_cons_neg h2,
      splitFirst_cons_neg h3, splitFirst_cons_neg h4, splitFirst_cons_neg h5,
      splitFirst_cons_neg h6, splitFirst_cons_neg h7]
  cases hsp : splitFirst openL t with
  | none => simp
  | some pq => simp [closeL_cons]

theorem splitFirst_open_skip : ∀ (a t : List Char), ¬ openL <:+: a →
    splitFirst openL (a ++ (closeL ++ t))
      = (splitFirst openL t).map (fun pq => (a ++ closeL ++ pq.1, pq.2)) := by
  intro a
  induction a with
  | nil =>
    intro t h
    simpa using splitFirst_open_through_close t
  | cons c a2 ih =>
    intro t h
    have hni : ¬ openL <:+: a2 := fun hi => h (List.infix_cons hi)
    have hcond : openL.isPrefixOf (c :: (a2 ++ (closeL ++ t))) = false := by
      cases hX : openL.isPrefixOf (c :: (a2 ++ (closeL ++ t))) with
      | false => rfl
      | true =>
        exfalso
        have hp2 : openL <+: (c :: a2) ++ (closeL ++ t) := isPrefixOf_true_iff.1 hX
        have hna : ¬ openL <+: (c :: a2) := fun hpa => h (List.IsPrefix.isInfix hpa)
        obtain ⟨r, hrne, har, hrb⟩ := prefix_overlap hp2 hna
        exact no_open_overlap har hrne hrb
    rw [show (c :: a2) ++ (closeL ++ t) = c :: (a2 ++ (closeL ++ t)) from rfl,
        splitFirst_cons_neg hcond, ih t hni]
    cases hsp : splitFirst openL t with
    | none => simp
    | some pq => simp

theorem splitFirst_close_at : ∀ (a t : List Char), ¬ closeL <:+: a →
    splitFirst closeL (a ++ (closeL ++ t)) = some (a, t) := by
  intro a
  induction a with
  | nil =>
    intro t h
    simpa using splitFirst_append_self closeL t (by decide)
  | cons c a2 ih =>
    intro t h
    have hni : ¬ closeL <:+: a2 := fun hi => h (List.infix_cons hi)
    have hcond : closeL.isPrefixOf (c :: (a2 ++ (closeL ++ t))) = false := by
      cases hX : closeL.isPrefixOf (c :: (a2 ++ (closeL ++ t))) with
      | false => rfl
      | true =>
        exfalso
        have hp2 : closeL <+: (c :: a2) ++ (closeL ++ t) := isPrefixOf_true_iff.1 hX
        have hna : ¬ closeL <+: (c :: a2) := fun hpa => h (List.IsPrefix.isInfix hpa)
        obtain ⟨r, hrne, har, hrb⟩ := prefix_overlap hp2 hna
        exact no_close_overlap har hrne hrb
    rw [show (c :: a2) ++ (closeL ++ t) = c :: (a2 ++ (closeL ++ t)) from rfl,
        splitFirst_cons_neg hcond, ih t hni]
    rfl

theorem jsSplitAux_getD0 (sep : List Char) (f : Nat) (s : List Char) :
    (jsSplitAux sep (f + 1) s).getD 0 [] = hsSplit sep s := by
  cases hsp : splitFirst sep s <;> simp [jsSplitAux, hsSplit, hsp]

theorem jsSplitAux_getD0ne (sep : List Char) (f : Nat) (hf : f ≠ 0) (s : List Char) :
    (jsSplitAux sep f s).getD 0 [] = hsSplit sep s := by
  cases f with
  | zero => exact absurd rfl hf
  | succ m => exact jsSplitAux_getD0 sep m s

theorem extract_inner_eq (inner trailing : String)
    (h1 : ¬ openL <:+: inner.toList) (h2 : ¬ closeL <:+: inner.toList) :
    extractReasoning ("<think>" ++ inner ++ "</think>" ++ trailing) = jsTrim inner := by
  have hdata : ("<think>" ++ inner ++ "</think>" ++ trailing).toList
      = openL ++ (inner.toList ++ (closeL ++ trailing.toList)) := by
    rw [toList_append, toList_append, toList_append]
    simp [openL, closeL, List.append_assoc]
  have hocc : splitFirst "<think>".toList ("<think>" ++ inner ++ "</think>" ++ trailing).toList
      = some ([], inner.toList ++ (closeL ++ trailing.toList)) := by
    rw [hdata]
    exact splitFirst_append_self _ _ (by decide)
  have hinc : containsSubstr ("<think>" ++ inner ++ "</think>" ++ trailing) "<think>" = true := by
    unfold containsSubstr
    rw [hocc]
    rfl
  unfold extractReasoning
  rw [if_pos hinc]
  have e1 : (jsSplit openL ("<think>" ++ inner ++ "</think>" ++ trailing).toList).getD 1 []
      = hsSplit openL (inner.toList ++ (closeL ++ trailing.toList)) := by
    unfold jsSplit
    rw [hdata]
    have hsf : splitFirst openL (openL ++ (inner.toList ++ (closeL ++ trailing.toList)))
        = some ([], inner.toList ++ (closeL ++ trailing.toList)) :=
      splitFirst_append_self _ _ (by decide)
    simp only [jsSplitAux, hsf]
    show (jsSplitAux openL (openL ++ (inner.toList ++ (closeL ++ trailing.toList))).length
        (inner.toList ++ (closeL ++ trailing.toList))).getD 0 [] = _
    exact jsSplitAux_getD0ne _ _ (by simp [openL_cons]) _
  rw [e1]
  obtain ⟨T, hT⟩ : ∃ T, hsSplit openL (inner.toList ++ (closeL ++ trailing.toList))
      = inner.toList ++ (closeL ++ T) := by
    unfold hsSplit
    rw [splitFirst_open_skip inner.toList trailing.toList h1]
    cases hsp : splitFirst openL trailing.toList with
    | none => exact ⟨trailing.toList, rfl⟩
    | some pq => exact ⟨pq.1, by simp⟩
  rw [hT]
  have e3 : (jsSplit closeL (inner.toList ++ (closeL ++ T))).getD 0 [] = inner.toList := by
    unfold jsSplit
    rw [jsSplitAux_getD0]
    unfold hsSplit
    rw [splitFirst_close_at inner.toList T h2]
  rw [e3]
  rfl

theorem extract_no_think_id (raw : String) (h : ¬ openL <:+: raw.toList) :
    extractReasoning raw = raw := by
  have hcs : containsSubstr raw "<think>" = false := by
    unfold containsSubstr
    rw [show ("<think>" : String).toList = openL from rfl, splitFirst_none_of_no_occ h]
    rfl
  simp [extractReasoning, hcs]

/-- C7: for a raw reasoning answer of the form
`<think>INNER</think>TRAILING` (with `INNER` containing neither
delimiter), the extracted text is `INNER` with surrounding whitespace
trimmed; a raw answer containing no `<think>` delimiter is returned
unmodified. -/
theorem think_tag_extraction :
    (∀ inner trailing : String, ¬ openL <:+: inner.toList → ¬ closeL <:+: inner.toList →
       extractReasoning ("<think>" ++ inner ++ "</think>" ++ trailing) = jsTrim inner)
    ∧ (∀ raw : String, ¬ openL <:+: raw.toList → extractReasoning raw = raw) :=
  ⟨extract_inner_eq, extract_no_think_id⟩

theorem think_tag_extraction_witness :
    extractReasoning "<think> abc </think>xyz" = "abc"
    ∧ extractReasoning "hello" = "hello" := by
  constructor
  · have h := think_tag_extraction.1 " abc " "xyz" (by decide) (by decide)
    rw [show ("<think>" ++ " abc " ++ "</think>" ++ "xyz" : String)
        = "<think> abc </think>xyz" from by decide] at h
    rw [h]
    decide
  · exact think_tag_extraction.2 "hello" (by decide)

end Omi
